import Mathlib

/-!
# Verification of `generateUnifiedReport.js`

Shallow embedding of the CSV parsing, statistics, transaction grouping and
concurrency-inference logic of `src/generateUnifiedReport.js`, together with
proofs of the specified properties.

Conventions of the embedding:
* JavaScript numbers that hold millisecond/elapsed values are modelled as `Int`
  (they come from `parseInt(...) || 0`).
* `Math.round` on a quotient is modelled exactly on `ℚ` as `⌊q + 1/2⌋`.
* JavaScript's `String.prototype.includes` is modelled by substring search on
  character lists; `Array.prototype.indexOf` on the header row by an
  `Option Nat` (`none` plays the role of `-1`).
* Objects used as string-keyed maps (`transactions`) are modelled as
  association lists in insertion order, matching JS object key order.
-/

namespace UnifiedReport

/-- JS `Array.prototype.indexOf` on the parsed header row: index of the first
occurrence, `none` for `-1`. -/
def jsIndexOf : List String → String → Option Nat
  | [], _ => none
  | a :: t, x => if a = x then some 0 else (jsIndexOf t x).map (· + 1)

/-- Value of a list of decimal digit characters. -/
def digitsToNat (ds : List Char) : Nat :=
  ds.foldl (fun acc c => acc * 10 + (c.toNat - 48)) 0

/-- JS `parseInt(str) || 0`: skip leading whitespace, optional sign, take the
leading run of decimal digits; `NaN` (no digits) becomes `0`. -/
def parseIntOr0 (s : String) : Int :=
  let cs := s.toList.dropWhile (·.isWhitespace)
  match cs with
  | '-' :: rest =>
      let ds := rest.takeWhile (·.isDigit)
      if ds = [] then 0 else -(digitsToNat ds : Int)
  | '+' :: rest =>
      let ds := rest.takeWhile (·.isDigit)
      if ds = [] then 0 else (digitsToNat ds : Int)
  | _ =>
      let ds := cs.takeWhile (·.isDigit)
      if ds = [] then 0 else (digitsToNat ds : Int)

/-- Substring test on character lists (JS `String.prototype.includes`). -/
def listContains (pat : List Char) : List Char → Bool
  | [] => pat.isPrefixOf ([] : List Char)
  | c :: t => pat.isPrefixOf (c :: t) || listContains pat t

/-- JS `haystack.includes(needle)`. -/
def strContains (haystack needle : String) : Bool :=
  listContains needle.toList haystack.toList

/-- The literal searched for in transaction-controller response messages. -/
def nosLit : List Char := "Number of samples in transaction".toList

/-- After the literal, the regex `\s*:\s*(\d+)` must match; returns the
captured count. -/
def matchCountAfter (cs : List Char) : Option Nat :=
  match cs.dropWhile (·.isWhitespace) with
  | ':' :: rest =>
      let ds := (rest.dropWhile (·.isWhitespace)).takeWhile (·.isDigit)
      if ds = [] then none else some (digitsToNat ds)
  | _ => none

/-- Search semantics of `responseMessage.match(/Number of samples in
transaction\s*:\s*(\d+)/)`: first position where the whole pattern matches. -/
def findCount : List Char → Option Nat
  | [] => none
  | c :: t =>
      if nosLit.isPrefixOf (c :: t) then
        match matchCountAfter ((c :: t).drop nosLit.length) with
        | some n => some n
        | none => findCount t
      else findCount t

/-- Expected child count parsed from a controller row's response message
(`countMatch ? parseInt(countMatch[1]) : 0`). -/
def expectedOfMessage (msg : String) : Nat :=
  (findCount msg.toList).getD 0

/-! ## `parseCSVLine` -/

/-- Prepend a character to the first (current) field. -/
def consHead (c : Char) : List String → List String
  | [] => [c.toString]
  | s :: ss => (c.toString ++ s) :: ss

/-- State machine of `parseCSVLine`: the Boolean is `inQuotes`; the result's
head is the field currently being accumulated. A quote inside quotes doubled
as `""` yields a literal quote (the loop consumes both); any other quote
toggles the state without being emitted; a comma outside quotes ends the
field; everything else is accumulated. -/
def pcl : Bool → List Char → List String
  | _, [] => [""]
  | true, '"' :: '"' :: rest => consHead '"' (pcl true rest)
  | inQ, '"' :: rest => pcl (!inQ) rest
  | false, ',' :: rest => "" :: pcl false rest
  | inQ, c :: rest => consHead c (pcl inQ rest)

/-- `parseCSVLine` from the source: split one line on commas outside quotes. -/
def parseCSVLine (line : String) : List String :=
  pcl false line.toList

/-! ## `calculateStatistics` and `percentile` -/

/-- `Math.round` of a real quotient: nearest integer, ties towards `+∞`. -/
def jsRound (q : ℚ) : Int := ⌊q + 1 / 2⌋

/-- `Math.round(s / n)` computed exactly in integer arithmetic:
`⌊s/n + 1/2⌋ = ⌊(2s+n)/(2n)⌋`. -/
def jsRoundDiv (s : Int) (n : Nat) : Int := (2 * s + n) / (2 * n)

/-- `Math.ceil(a / b)` for naturals, as ceiling division. -/
def ceilDiv (a b : Nat) : Nat := (a + b - 1) / b

structure Stats where
  min : Int
  max : Int
  avg : Int
  p90 : Int
  p95 : Int
  p99 : Int
  deriving Repr, DecidableEq

/-- `percentile(sortedArray, p)`: `index = Math.ceil(p/100 * N) - 1`, clamped
to `≥ 0`, read from the sorted array. `Math.ceil((p/100) * N)` is the ceiling
division `⌈p·N / 100⌉` since `p` and `N` are integral. -/
def percentile (sorted : List Int) (p : Nat) : Int :=
  if sorted.length = 0 then 0
  else
    let index : Int := (ceilDiv (p * sorted.length) 100 : Int) - 1
    sorted.getD (max 0 index).toNat 0

/-- `calculateStatistics(values)`: all-zero on empty input, otherwise
min/max/percentiles from the ascending sort and the rounded mean
(`Math.round(sum / sorted.length)`, computed exactly by `jsRoundDiv`). -/
def calculateStatistics (values : List Int) : Stats :=
  if values.length = 0 then ⟨0, 0, 0, 0, 0, 0⟩
  else
    let sorted := values.insertionSort (· ≤ ·)
    let sum := sorted.sum
    { min := sorted.getD 0 0
      max := sorted.getD (sorted.length - 1) 0
      avg := jsRoundDiv sum sorted.length
      p90 := percentile sorted 90
      p95 := percentile sorted 95
      p99 := percentile sorted 99 }

/-! ## Number and fixed-point rendering (JS `toFixed(2)` and `toString`) -/

/-- Decimal digits of `n`, most significant first, computed with explicit fuel
so that it reduces in the kernel. -/
def natDigitsAux : Nat → Nat → List Char
  | 0, _ => []
  | fuel + 1, n =>
      if n < 10 then [Nat.digitChar n]
      else natDigitsAux fuel (n / 10) ++ [Nat.digitChar (n % 10)]

/-- Decimal rendering of a natural number. -/
def natRepr (n : Nat) : String := ⟨natDigitsAux (n + 1) n⟩

/-- Two-digit zero-padded rendering, for the fractional part. -/
def twoDigits (k : Nat) : String :=
  if k < 10 then "0" ++ natRepr k else natRepr k

/-- Render `n` hundredths as a fixed two-decimal string. -/
def fix2 (n : Nat) : String := natRepr (n / 100) ++ "." ++ twoDigits (n % 100)

/-- JS `x.toFixed(2)` on the exact rational value: the integer of hundredths
nearest to `x` (ties towards larger magnitude away from the sign handling of
ECMA's `Number.prototype.toFixed`), rendered with two decimals. -/
def toFixed2 (q : ℚ) : String :=
  if q < 0 then "-" ++ fix2 (jsRound (100 * -q)).toNat
  else fix2 (jsRound (100 * q)).toNat

/-- `((a / b) * 100).toFixed(2)` for natural counters `a ≤ b`-ish ratios:
the hundredths integer nearest to `10000·a/b`, rendered with two decimals.
Exactly `toFixed2 ((a : ℚ) / b * 100)` when `b ≠ 0` (proved below). -/
def toFixed2Ratio (a b : Nat) : String :=
  fix2 (jsRoundDiv (10000 * a) b).toNat

/-! ## Samples and the parse loop of `parseJMeterResults` -/

structure Sample where
  label : String
  elapsed : Int
  success : Bool
  responseCode : String
  responseMessage : String
  dataType : String
  threadName : String
  failureMessage : String
  latency : Int
  connect : Int
  bytes : Int
  url : String
  timestamp : Int
  deriving Repr, DecidableEq, Inhabited

/-- Entry pushed onto the `errors` array. -/
structure ErrEntry where
  label : String
  responseCode : String
  responseMessage : String
  failureMessage : String
  deriving Repr, DecidableEq

/-- Column indices resolved from the header row; `label` and `elapsed` are
known to be present (the parser returned `null` otherwise). -/
structure HeaderIdx where
  label : Nat
  elapsed : Nat
  success : Option Nat
  responseCode : Option Nat
  responseMessage : Option Nat
  dataType : Option Nat
  threadName : Option Nat
  failureMessage : Option Nat
  latency : Option Nat
  connect : Option Nat
  bytes : Option Nat
  url : Option Nat
  timeStamp : Option Nat
  deriving Repr

/-- `values[i] || ''` where `i` may be `-1` (absent column) or out of range. -/
def getField (values : List String) : Option Nat → String
  | none => ""
  | some i => values.getD i ""

/-- Build the sample object from one row, as in the loop body. -/
def mkSample (idx : HeaderIdx) (values : List String) : Sample :=
  { label := values.getD idx.label ""
    elapsed := parseIntOr0 (values.getD idx.elapsed "")
    success := getField values idx.success == "true"
    responseCode := getField values idx.responseCode
    responseMessage := getField values idx.responseMessage
    dataType := getField values idx.dataType
    threadName := getField values idx.threadName
    failureMessage := getField values idx.failureMessage
    latency := parseIntOr0 (getField values idx.latency)
    connect := parseIntOr0 (getField values idx.connect)
    bytes := parseIntOr0 (getField values idx.bytes)
    url := getField values idx.url
    timestamp := parseIntOr0 (getField values idx.timeStamp) }

/-- `sample.dataType === '' && sample.responseMessage.includes('Number of
samples in transaction')`. -/
def isTransactionController (s : Sample) : Bool :=
  s.dataType == "" && strContains s.responseMessage "Number of samples in transaction"

/-- `sample.dataType !== '' || (sample.url && sample.url !== 'null' &&
sample.url !== '')`. -/
def isIndividualRequest (s : Sample) : Bool :=
  s.dataType != "" || (s.url != "" && s.url != "null")

structure Transaction where
  name : String
  samples : List Sample
  totalSamples : Nat
  successCount : Nat
  errorCount : Nat
  childRequests : List Sample
  childRequestsByExecution : List (List Sample)
  deriving Repr, DecidableEq, Inhabited

/-- Fresh transaction group, as initialised on first sight of a label. -/
def initTx (name : String) : Transaction :=
  { name := name, samples := [], totalSamples := 0, successCount := 0,
    errorCount := 0, childRequests := [], childRequestsByExecution := [] }

/-- The `transactions` object: string-keyed map in insertion order. -/
abbrev TxMap := List (String × Transaction)

/-- Lookup of `transactions[name]`. -/
def txFind : TxMap → String → Option Transaction
  | [], _ => none
  | (k, t) :: m, n => if k = n then some t else txFind m n

/-- Write `transactions[name] = t`: replace the value at the existing key in
place (JS objects keep key order), append at the end otherwise. -/
def txSet : TxMap → String → Transaction → TxMap
  | [], name, t => [(name, t)]
  | (k, t') :: m, name, t =>
      if k = name then (name, t) :: m else (k, t') :: txSet m name t

/-- Loop state of the single pass over data rows. `current` bundles
`currentTransaction` with `currentTransactionExecutionIndex` (the JS code sets
and clears the two together; `none` is `null`/`-1`). -/
structure ParseState where
  samples : List Sample
  transactions : TxMap
  allSamples : List Sample
  errors : List ErrEntry
  totalSuccessCount : Nat
  totalErrorCount : Nat
  current : Option (String × Nat)
  expectedChildRequestCount : Nat
  collectedChildRequestCount : Nat
  deriving Repr

def initState : ParseState :=
  { samples := [], transactions := [], allSamples := [], errors := [],
    totalSuccessCount := 0, totalErrorCount := 0, current := none,
    expectedChildRequestCount := 0, collectedChildRequestCount := 0 }

def mkErr (s : Sample) : ErrEntry :=
  { label := s.label, responseCode := s.responseCode,
    responseMessage := s.responseMessage, failureMessage := s.failureMessage }

/-- The error-tracking condition of the loop body: a failed sample that is an
individual request and not a transaction controller. -/
def errCond (s : Sample) : Bool :=
  !s.success && isIndividualRequest s && !isTransactionController s

/-- Error/success tallying part of the loop body. -/
def tally (st : ParseState) (s : Sample) : ParseState :=
  if errCond s then
    { st with errors := st.errors ++ [mkErr s],
              totalErrorCount := st.totalErrorCount + 1 }
  else if s.success then
    { st with totalSuccessCount := st.totalSuccessCount + 1 }
  else st

/-- Transaction-controller branch: create/extend the group, start a new
child-capture window for execution index `t.samples.length`. -/
def controllerStep (st : ParseState) (s : Sample) : ParseState :=
  let expectedCount := expectedOfMessage s.responseMessage
  let t := (txFind st.transactions s.label).getD (initTx s.label)
  let e := t.samples.length
  let t' : Transaction :=
    { t with
      samples := t.samples ++ [s]
      totalSamples := t.totalSamples + 1
      successCount := if s.success then t.successCount + 1 else t.successCount
      errorCount := if s.success then t.errorCount else t.errorCount + 1
      childRequestsByExecution := t.childRequestsByExecution ++ [[]] }
  { st with
    samples := st.samples ++ [s]
    transactions := txSet st.transactions s.label t'
    current := some (s.label, e)
    expectedChildRequestCount := expectedCount
    collectedChildRequestCount := 0 }

/-- Non-controller branch inside an open capture window. When the expected
count is already exhausted the window is closed and (as in the source, where
the subsequent capture test can no longer pass) the row is not captured;
otherwise a child row is appended to the current execution's list. -/
def childStep (st : ParseState) (s : Sample) (name : String) (k : Nat) :
    ParseState :=
  if st.expectedChildRequestCount ≤ st.collectedChildRequestCount then
    { st with current := none, expectedChildRequestCount := 0,
              collectedChildRequestCount := 0 }
  else if isIndividualRequest s && !isTransactionController s then
    match txFind st.transactions name with
    | some t =>
        let t' : Transaction :=
          { t with
            childRequests := t.childRequests ++ [s]
            childRequestsByExecution :=
              t.childRequestsByExecution.set k
                (t.childRequestsByExecution.getD k [] ++ [s]) }
        { st with
          transactions := txSet st.transactions name t'
          collectedChildRequestCount := st.collectedChildRequestCount + 1 }
    | none => st
  else st

/-- One iteration of the loop body for a row that passed the length guard. -/
def processSample (st : ParseState) (s : Sample) : ParseState :=
  let st1 := tally { st with allSamples := st.allSamples ++ [s] } s
  if isTransactionController s then controllerStep st1 s
  else
    match st1.current with
    | some (name, k) => childStep st1 s name k
    | none => st1

/-- One iteration for a raw line: rows too short to reach both the label and
elapsed columns are skipped. -/
def processLine (idx : HeaderIdx) (st : ParseState) (line : String) :
    ParseState :=
  let values := parseCSVLine line
  if values.length > max idx.label idx.elapsed then
    processSample st (mkSample idx values)
  else st

/-! ## Finalisation and the returned aggregate -/

/-- Deduplicate child requests by label, keeping first occurrences. -/
def dedupByLabel : List Sample → List String → List Sample
  | [], _ => []
  | s :: t, seen =>
      if s.label ∈ seen then dedupByLabel t seen
      else s :: dedupByLabel t (s.label :: seen)

structure FinalTransaction where
  name : String
  samples : List Sample
  totalSamples : Nat
  successCount : Nat
  errorCount : Nat
  childRequests : List Sample
  childRequestsByExecution : List (List Sample)
  stats : Stats
  errorRate : String
  uniqueChildRequests : List Sample
  deriving Repr, DecidableEq

/-- Post-loop per-transaction pass: statistics over the controller elapsed
times, error rate string, and label-deduplicated child requests. -/
def finalizeTx (t : Transaction) : FinalTransaction :=
  { name := t.name
    samples := t.samples
    totalSamples := t.totalSamples
    successCount := t.successCount
    errorCount := t.errorCount
    childRequests := t.childRequests
    childRequestsByExecution := t.childRequestsByExecution
    stats := calculateStatistics (t.samples.map (·.elapsed))
    errorRate := toFixed2Ratio t.errorCount t.totalSamples
    uniqueChildRequests := dedupByLabel t.childRequests [] }

/-- `passPercentage` is a string in the counted case and the number `100`
otherwise; the sum type records that type difference. -/
inductive PassPct where
  | num : Nat → PassPct
  | str : String → PassPct
  deriving Repr, DecidableEq

structure AggregatedResult where
  totalSamples : Nat
  samples : List Sample
  transactions : List (String × FinalTransaction)
  passPercentage : PassPct
  totalRequests : Nat
  totalSuccessCount : Nat
  totalErrorCount : Nat
  deriving Repr, DecidableEq

/-- Build the returned object from the final loop state. -/
def finalize (st : ParseState) : AggregatedResult :=
  let totalRequestCount := st.totalSuccessCount + st.totalErrorCount
  { totalSamples := st.samples.length
    samples := st.samples
    transactions := st.transactions.map (fun p => (p.1, finalizeTx p.2))
    passPercentage :=
      if 0 < totalRequestCount then
        .str (toFixed2Ratio st.totalSuccessCount totalRequestCount)
      else .num 100
    totalRequests := totalRequestCount
    totalSuccessCount := st.totalSuccessCount
    totalErrorCount := st.totalErrorCount }

/-- Header indices resolved by `headers.indexOf(...)`. -/
def mkHeaderIdx (headers : List String) (labelIdx elapsedIdx : Nat) :
    HeaderIdx :=
  { label := labelIdx
    elapsed := elapsedIdx
    success := jsIndexOf headers "success"
    responseCode := jsIndexOf headers "responseCode"
    responseMessage := jsIndexOf headers "responseMessage"
    dataType := jsIndexOf headers "dataType"
    threadName := jsIndexOf headers "threadName"
    failureMessage := jsIndexOf headers "failureMessage"
    latency := jsIndexOf headers "Latency"
    connect := jsIndexOf headers "Connect"
    bytes := jsIndexOf headers "bytes"
    url := jsIndexOf headers "URL"
    timeStamp := jsIndexOf headers "timeStamp" }

/-- JS `csvContent.split('\n')`: split on every newline, keeping empties. -/
def splitNl : List Char → List String
  | [] => [""]
  | c :: t => if c = '\n' then "" :: splitNl t else consHead c (splitNl t)

/-- Truthiness of `line.trim()`: the line has some non-whitespace character. -/
def keepLine (l : String) : Bool :=
  l.toList.any (fun c => !c.isWhitespace)

/-- The non-empty lines of the CSV content
(`csvContent.split('\n').filter(line => line.trim())`). -/
def csvLines (csvContent : String) : List String :=
  (splitNl csvContent.toList).filter keepLine

/-- `parseJMeterResults`, from the CSV text to the aggregate: `none` stands
for the `null` returns on an empty CSV or a header without the `label` or
`elapsed` column. -/
def parseJMeterResults (csvContent : String) : Option AggregatedResult :=
  let lines := csvLines csvContent
  if lines.length < 2 then none
  else
    let headers := parseCSVLine (lines.getD 0 "")
    match jsIndexOf headers "label", jsIndexOf headers "elapsed" with
    | some labelIdx, some elapsedIdx =>
        let idx := mkHeaderIdx headers labelIdx elapsedIdx
        some (finalize ((lines.drop 1).foldl (processLine idx) initState))
    | _, _ => none

/-! ## Concurrency inference: `countThreadInstances` -/

/-- A JS `Set` built from a list: deduplicate keeping first occurrences. -/
def dedupSeen {α : Type} [DecidableEq α] : List α → List α → List α
  | [], _ => []
  | x :: t, seen =>
      if x ∈ seen then dedupSeen t seen else x :: dedupSeen t (x :: seen)

/-- `new Set(list)` in insertion order. -/
def jsDedup {α : Type} [DecidableEq α] (l : List α) : List α := dedupSeen l []

/-- JS `'  x '.trim()` on character lists. -/
def jsTrim (cs : List Char) : List Char :=
  (((cs.dropWhile (·.isWhitespace)).reverse).dropWhile (·.isWhitespace)).reverse

/-- Trailing-number extraction: the regex `-(\d+)$` then the fallback
`\s+(\d+)$`; the captured digits parsed with `parseInt(_, 10)`.
The trailing digit run must be non-empty and preceded by `-` (first regex) or
by a whitespace character (second). -/
def extractNum (name : String) : Option Nat :=
  let rcs := name.toList.reverse
  let ds := rcs.takeWhile (·.isDigit)
  if ds = [] then none
  else
    match rcs.drop ds.length with
    | '-' :: _ => some (digitsToNat ds.reverse)
    | c :: _ => if c.isWhitespace then some (digitsToNat ds.reverse) else none
    | [] => none

/-- Exact match of `\s*\d+-\d+` (the classes are disjoint, so the greedy
deterministic scan decides membership). -/
def tailMatch (cs : List Char) : Bool :=
  let cs1 := cs.dropWhile (·.isWhitespace)
  let d1 := cs1.takeWhile (·.isDigit)
  if d1 = [] then false
  else
    match cs1.drop d1.length with
    | '-' :: rest =>
        let d2 := rest.takeWhile (·.isDigit)
        decide (d2 ≠ []) && decide (rest.drop d2.length = [])
    | _ => false

/-- The lazy group of `^(.+?)\s*\d+-\d+$`: shortest non-empty prefix whose
remainder matches `\s*\d+-\d+` exactly. -/
def lazySplit : List Char → List Char → Option (List Char)
  | _, [] => none
  | pre, c :: t =>
      if tailMatch t then some (pre ++ [c]) else lazySplit (pre ++ [c]) t

/-- Thread-group key of one thread name: the trimmed captured group, or the
whole name when the regex does not match. -/
def groupKey (name : String) : String :=
  match lazySplit [] name.toList with
  | some pre => ⟨jsTrim pre⟩
  | none => name

/-- Map over the groups (in insertion order). -/
def groupFind : List (String × List String) → String → Option (List String)
  | [], _ => none
  | (k, g) :: m, n => if k = n then some g else groupFind m n

/-- Add one (unique) thread name under its group key. -/
def groupAdd (m : List (String × List String)) (key name : String) :
    List (String × List String) :=
  if (groupFind m key).isSome then
    m.map (fun q => if q.1 = key then (key, q.2 ++ [name]) else q)
  else m ++ [(key, [name])]

/-- `threadsByGroup`: the unique thread names bucketed by group key. -/
def threadsByGroup (names : List String) : List (String × List String) :=
  names.foldl (fun m n => groupAdd m (groupKey n) n) []

/-- `Math.max(...nums)` for a non-empty list of naturals. -/
def maxList (l : List Nat) : Nat := l.foldl max 0

/-- The sample filter: JMX thread-group names when available and non-empty,
otherwise the configured substring patterns; empty `threadName` never
matches. -/
def matchingSamplesOf (patterns : List String) (tgn : Option (List String))
    (allSamples : List Sample) : List Sample :=
  let byPattern := allSamples.filter
    (fun s => s.threadName ≠ "" && patterns.any (fun p => strContains s.threadName p))
  match tgn with
  | some gns =>
      if gns.isEmpty then byPattern
      else allSamples.filter
        (fun s => s.threadName ≠ "" && gns.any (fun g => strContains s.threadName g))
  | none => byPattern

/-- First-sample timestamps: a new thread instance is assumed at the first
sample and after every gap larger than `executionGapMs`. -/
def gapFirsts (ts : List Int) (executionGapMs : Int) : List Int :=
  (ts.foldl
    (fun (acc : List Int × Int) t =>
      if acc.1.isEmpty || executionGapMs < t - acc.2 then (acc.1 ++ [t], t)
      else (acc.1, t))
    ([], 0)).1

/-- `countThreadInstances` from `extractUserConfiguration`. -/
def countThreadInstances (patterns : List String) (tgn : Option (List String))
    (allSamples : List Sample) (rampUpWindowMs executionGapMs : Int) : Nat :=
  let matchingSamples := matchingSamplesOf patterns tgn allSamples
  if matchingSamples.length = 0 then 0
  else
    let uniqueThreadNames := jsDedup (matchingSamples.map (·.threadName))
    let groups := threadsByGroup uniqueThreadNames
    if 1 < groups.length then
      (groups.map (fun g =>
        let nums := g.2.filterMap extractNum
        if nums ≠ [] then maxList nums else g.2.length)).sum
    else
      let nums := uniqueThreadNames.filterMap extractNum
      if nums ≠ [] then maxList nums
      else if 1 < uniqueThreadNames.length then uniqueThreadNames.length
      else
        let ts := (matchingSamples.map (·.timestamp)).insertionSort (· ≤ ·)
        let firsts := gapFirsts ts executionGapMs
        let windows := jsDedup (firsts.map (fun t => Int.fdiv t rampUpWindowMs))
        max (max windows.length uniqueThreadNames.length) 1

/-! ## Invariant of the child-capture window -/

/-- Per-transaction bound: one child list per controller row, and the number
of captured children of each execution never exceeds the expected count
parsed from that execution's controller row. -/
def TxBounded (t : Transaction) : Prop :=
  t.childRequestsByExecution.length = t.samples.length ∧
  ∀ i, i < t.samples.length →
    (t.childRequestsByExecution.getD i []).length
      ≤ expectedOfMessage ((t.samples.getD i default).responseMessage)

/-- Loop invariant: every stored transaction satisfies the bound, and an open
capture window points at the last execution of an existing transaction, with
the running counters agreeing with the stored state. -/
def StInv (st : ParseState) : Prop :=
  (∀ p ∈ st.transactions, TxBounded p.2) ∧
  match st.current with
  | none => True
  | some (name, k) =>
      ∃ t, txFind st.transactions name = some t ∧
        k + 1 = t.samples.length ∧
        st.expectedChildRequestCount
          = expectedOfMessage ((t.samples.getD k default).responseMessage) ∧
        st.collectedChildRequestCount
          = (t.childRequestsByExecution.getD k []).length

/-! ## Specification-side definitions and concrete inputs -/

/-- Plain comma splitting (the spec's description of unquoted tokenizing),
to be compared with `parseCSVLine` on quote-free lines. -/
def splitComma : List Char → List String
  | [] => [""]
  | c :: r => if c = ',' then "" :: splitComma r else consHead c (splitComma r)

/-- The three-line CSV of the C2 scenario: header, one transaction-controller
row, one child row. -/
def csvC2 : String :=
  "label,elapsed,success,responseCode,responseMessage,dataType,threadName,timeStamp\nLogin,500,true,200,Number of samples in transaction : 1,,Login 1-1,1000\nPOST /login,480,true,200,OK,text,Login 1-1,1005"

/-- An individual-request sample carrying a given thread name (used by the
concurrency scenarios, where only `threadName` and `timestamp` matter). -/
def sampleNamed (n : String) : Sample :=
  { label := "GET /x", elapsed := 100, success := true, responseCode := "200",
    responseMessage := "OK", dataType := "text", threadName := n,
    failureMessage := "", latency := 0, connect := 0, bytes := 0,
    url := "", timestamp := 0 }

/-- Controller row of the C1 witness CSV. -/
def ctrlC1 : Sample :=
  { label := "T", elapsed := 5, success := false, responseCode := "",
    responseMessage := "Number of samples in transaction : 1", dataType := "",
    threadName := "", failureMessage := "", latency := 0, connect := 0,
    bytes := 0, url := "", timestamp := 0 }

/-- Child row of the C1 witness CSV. -/
def childC1 : Sample :=
  { label := "c", elapsed := 3, success := false, responseCode := "",
    responseMessage := "OK", dataType := "text", threadName := "",
    failureMessage := "", latency := 0, connect := 0, bytes := 0, url := "",
    timestamp := 0 }

/-- Finalised transaction of the C1 witness CSV. -/
def txC1 : FinalTransaction :=
  { name := "T", samples := [ctrlC1], totalSamples := 1, successCount := 0,
    errorCount := 1, childRequests := [childC1],
    childRequestsByExecution := [[childC1]],
    stats := ⟨5, 5, 5, 5, 5, 5⟩, errorRate := "100.00",
    uniqueChildRequests := [childC1] }

/-- The C1 witness CSV: one controller expecting one child, one child row. -/
def csvC1w : String :=
  "label,elapsed,responseMessage,dataType\nT,5,Number of samples in transaction : 1,\nc,3,OK,text"

/-- Parse result of `csvC1w`. -/
def rC1 : AggregatedResult :=
  { totalSamples := 1, samples := [ctrlC1], transactions := [("T", txC1)],
    passPercentage := PassPct.str "0.00", totalRequests := 1,
    totalSuccessCount := 0, totalErrorCount := 1 }

/-- The C8 sample set: three District Coordinator threads. -/
def dcSamples : List Sample :=
  [sampleNamed "District Coordinator 1-1",
   sampleNamed "District Coordinator 1-2",
   sampleNamed "District Coordinator 1-3"]

/-- A header layout with only `label` (0) and `elapsed` (1) present. -/
def idx0 : HeaderIdx :=
  { label := 0, elapsed := 1, success := none, responseCode := none,
    responseMessage := none, dataType := none, threadName := none,
    failureMessage := none, latency := none, connect := none, bytes := none,
    url := none, timeStamp := none }

/-- Result of parsing a CSV whose rows yield no counted requests. -/
def r10 : AggregatedResult :=
  { totalSamples := 0, samples := [], transactions := [],
    passPercentage := PassPct.num 100, totalRequests := 0,
    totalSuccessCount := 0, totalErrorCount := 0 }

/-! ## Lemmas about `pcl` -/

theorem pcl_other (inQ : Bool) (c : Char) (rest : List Char)
    (h1 : c ≠ '"') (h2 : ¬(inQ = false ∧ c = ',')) :
    pcl inQ (c :: rest) = consHead c (pcl inQ rest) := by
  rw [pcl.eq_def]
  split <;> first | rfl | simp_all [eq_comm]

theorem pcl_comma (rest : List Char) :
    pcl false (',' :: rest) = "" :: pcl false rest := rfl

theorem pcl_quote_out (rest : List Char) :
    pcl false ('"' :: rest) = pcl true rest := by
  rw [pcl.eq_def]
  split <;> first | rfl | simp_all [eq_comm]

/-- Inside quotes, every character other than a quote is accumulated; with no
quote ahead the whole remainder becomes the final field. -/
theorem pcl_in_no_quote (cs : List Char) (h : '"' ∉ cs) :
    pcl true cs = [String.mk cs] := by
  induction cs with
  | nil => rfl
  | cons c r ih =>
      have hc : c ≠ '"' := fun hcq => h (hcq ▸ List.mem_cons_self c r)
      have hr : '"' ∉ r := fun hm => h (List.mem_cons_of_mem c hm)
      rw [pcl_other true c r hc (by simp), ih hr]
      simp [consHead, Char.toString, String.ext_iff]

/-- Outside quotes, on a quote-free line `pcl` is plain comma splitting. -/
theorem pcl_no_quote_split (cs : List Char) (h : '"' ∉ cs) :
    pcl false cs = splitComma cs := by
  induction cs with
  | nil => rfl
  | cons c r ih =>
      have hc : c ≠ '"' := fun hcq => h (hcq ▸ List.mem_cons_self c r)
      have hr : '"' ∉ r := fun hm => h (List.mem_cons_of_mem c hm)
      by_cases hcm : c = ','
      · subst hcm
        rw [pcl_comma, ih hr]
        simp [splitComma]
      · rw [pcl_other false c r hc (by simp [hcm]), ih hr]
        simp [splitComma, hcm]

/-- A quote opened after a comma-free, quote-free prefix and never closed:
the prefix and all remaining characters (commas included) accumulate into one
final field, with no error. -/
theorem pcl_unterminated (pre cs : List Char)
    (hp : '"' ∉ pre) (hpc : ',' ∉ pre) (h : '"' ∉ cs) :
    pcl false (pre ++ '"' :: cs) = [String.mk (pre ++ cs)] := by
  induction pre with
  | nil =>
      simpa using (pcl_quote_out cs).trans (pcl_in_no_quote cs h)
  | cons c r ih =>
      have hc : c ≠ '"' := fun hcq => hp (hcq ▸ List.mem_cons_self c r)
      have hcm : c ≠ ',' := fun hcq => hpc (hcq ▸ List.mem_cons_self c r)
      have hr : '"' ∉ r := fun hm => hp (List.mem_cons_of_mem c hm)
      have hrc : ',' ∉ r := fun hm => hpc (List.mem_cons_of_mem c hm)
      rw [List.cons_append,
        pcl_other false c (r ++ '"' :: cs) hc (by simp [hcm]), ih hr hrc]
      simp [consHead, Char.toString, String.ext_iff]

/-! ## Claim theorems -/

/-- **C7**: `parseCSVLine` splits on commas outside double quotes, keeps
commas of a quoted field in a single field, converts a doubled quote inside a
quoted field to one literal quote, accumulates everything after an
unterminated quote without failing, and tokenizes `"a,""b"",c"` to the single
field `a,"b",c`. -/
theorem C7_parseCSVLine_quoting :
    parseCSVLine "\"a,\"\"b\"\",c\"" = ["a,\"b\",c"] ∧
    (∀ cs : List Char, '"' ∉ cs → pcl false cs = splitComma cs) ∧
    (∀ pre cs : List Char, '"' ∉ pre → ',' ∉ pre → '"' ∉ cs →
      pcl false (pre ++ '"' :: cs) = [String.mk (pre ++ cs)]) :=
  ⟨by decide, pcl_no_quote_split, pcl_unterminated⟩

/-- Witness for **C7**: the quantified conjuncts applied at concrete lines. -/
theorem C7_parseCSVLine_quoting_witness :
    pcl false "a,b".toList = splitComma "a,b".toList ∧
    pcl false ("pre".toList ++ '"' :: "x,y".toList)
      = [String.mk ("pre".toList ++ "x,y".toList)] :=
  ⟨C7_parseCSVLine_quoting.2.1 "a,b".toList (by decide),
   C7_parseCSVLine_quoting.2.2 "pre".toList "x,y".toList
     (by decide) (by decide) (by decide)⟩

/-- **C2**: on the three-line CSV (header, controller row `Login`/500/true
with `Number of samples in transaction : 1`, child row `POST /login`/480),
`parseJMeterResults` yields exactly one transaction group `Login` with one
execution, one captured child `POST /login`, and `stats.avg = 500`. -/
theorem C2_login_scenario :
    (parseJMeterResults csvC2).map (fun r =>
      (r.transactions.map Prod.fst,
       r.transactions.map (fun p =>
         (p.2.samples.length, p.2.childRequests.map (fun s => s.label),
          p.2.stats.avg))))
    = some (["Login"], [(1, ["POST /login"], 500)]) := by decide

/-- **C8**: thread names `District Coordinator 1-1/1-2/1-3` matching pattern
`District Coordinator` give inferred concurrency 3 (single thread group, max
trailing thread number). -/
theorem C8_district_coordinator_three :
    countThreadInstances ["District Coordinator"] none dcSamples 10000 30000
      = 3 := by decide

/-! ## Numeric and order lemmas for the statistics -/

theorem jsRoundDiv_eq (s : Int) (n : Nat) (hn : n ≠ 0) :
    jsRoundDiv s n = jsRound ((s : ℚ) / (n : ℚ)) := by
  have hn' : ((n : ℚ)) ≠ 0 := Nat.cast_ne_zero.mpr hn
  have key : (s : ℚ) / (n : ℚ) + 1 / 2 = ((2 * s + (n : Int) : Int) : ℚ) / ((2 * n : ℕ) : ℚ) := by
    push_cast
    field_simp
    ring
  simp only [jsRound, jsRoundDiv, key, Rat.floor_intCast_div_natCast]
  push_cast
  rfl

theorem ceilDiv_cast (a b : Nat) (hb : 0 < b) :
    ((ceilDiv a b : Nat) : Int) = ⌈(a : ℚ) / (b : ℚ)⌉ := by
  have hb' : (0 : ℚ) < (b : ℚ) := by exact_mod_cast hb
  rcases Nat.eq_zero_or_pos a with ha | ha
  · subst ha
    simp [ceilDiv, Nat.div_eq_of_lt (show b - 1 < b by omega)]
  · have hq : ceilDiv a b = (a - 1) / b + 1 := by
      unfold ceilDiv
      rw [show a + b - 1 = (a - 1) + b by omega, Nat.add_div_right _ hb]
    rw [hq]
    refine le_antisymm ?_ ?_
    · rw [Int.le_ceil_iff]
      push_cast
      rw [add_sub_cancel_right, lt_div_iff₀ hb']
      have h1 : (a - 1) / b * b ≤ a - 1 := Nat.div_mul_le_self _ _
      exact_mod_cast lt_of_le_of_lt h1 (by omega)
    · rw [Int.ceil_le, div_le_iff₀ hb']
      have h2 : a - 1 < (a - 1) / b * b + b := Nat.lt_div_mul_add hb
      have h3 : a ≤ ((a - 1) / b + 1) * b := by
        have h4 : ((a - 1) / b + 1) * b = (a - 1) / b * b + b := by ring
        set q := (a - 1) / b * b with hqdef
        omega
      exact_mod_cast h3

theorem toFixed2Ratio_eq (a b : Nat) (hb : b ≠ 0) :
    toFixed2Ratio a b = toFixed2 ((a : ℚ) / (b : ℚ) * 100) := by
  have hq0 : (0 : ℚ) ≤ (a : ℚ) / (b : ℚ) * 100 := by positivity
  rw [toFixed2, if_neg (not_lt.mpr hq0), toFixed2Ratio]
  have key : jsRoundDiv (10000 * (a : Int)) b
      = jsRound (100 * ((a : ℚ) / (b : ℚ) * 100)) := by
    rw [jsRoundDiv_eq _ b hb]
    congr 1
    have hb' : ((b : ℚ)) ≠ 0 := Nat.cast_ne_zero.mpr hb
    push_cast
    field_simp
    ring
  rw [key]

theorem percentile_eq_getD (l : List Int) (h : l.length ≠ 0) (p : Nat) :
    percentile l p = l.getD (ceilDiv (p * l.length) 100 - 1) 0 := by
  rw [percentile, if_neg h]
  show l.getD (max 0 ((ceilDiv (p * l.length) 100 : Int) - 1)).toNat 0 = _
  congr 1
  omega

theorem ceil_pct (p N : Nat) :
    ((ceilDiv (p * N) 100 : Nat) : Int) = ⌈(p : ℚ) / 100 * (N : ℚ)⌉ := by
  rw [ceilDiv_cast _ 100 (by norm_num)]
  congr 1
  push_cast
  ring

theorem getD_zero_headI (l : List Int) : l.getD 0 0 = l.headI := by
  cases l <;> rfl

theorem getD_pred_getLastD (l : List Int) (h : l ≠ []) :
    l.getD (l.length - 1) 0 = l.getLastD 0 := by
  induction l with
  | nil => exact absurd rfl h
  | cons a t ih =>
      cases t with
      | nil => rfl
      | cons b t2 =>
          rw [show (a :: b :: t2).length - 1 = (b :: t2).length - 1 + 1 by simp,
            List.getD_cons_succ, ih (List.cons_ne_nil _ _)]
          simp [List.getLastD_cons]

theorem sorted_getD_mono {l : List Int} (hs : l.Sorted (· ≤ ·))
    {i j : Nat} (hij : i ≤ j) (hj : j < l.length) :
    l.getD i 0 ≤ l.getD j 0 := by
  have hi : i < l.length := lt_of_le_of_lt hij hj
  rw [List.getD_eq_get _ _ hi, List.getD_eq_get _ _ hj]
  exact hs.rel_get_of_le (Fin.mk_le_mk.mpr hij)

theorem head_le_mem {l : List Int} (hs : l.Sorted (· ≤ ·)) :
    ∀ x ∈ l, l.getD 0 0 ≤ x := by
  intro x hx
  obtain ⟨⟨i, hi⟩, rfl⟩ := List.mem_iff_get.mp hx
  have h2 := sorted_getD_mono hs (Nat.zero_le i) hi
  rwa [List.getD_eq_get _ _ hi] at h2

theorem mem_le_last {l : List Int} (hs : l.Sorted (· ≤ ·)) :
    ∀ x ∈ l, x ≤ l.getD (l.length - 1) 0 := by
  intro x hx
  obtain ⟨⟨i, hi⟩, rfl⟩ := List.mem_iff_get.mp hx
  have h2 := sorted_getD_mono hs (show i ≤ l.length - 1 by omega)
    (show l.length - 1 < l.length by omega)
  rwa [List.getD_eq_get _ _ hi] at h2

theorem half_floor : (⌊(1 / 2 : ℚ)⌋ : Int) = 0 := by norm_num

/-- `Math.round` of a quotient lies between integer bounds of the numerand. -/
theorem jsRoundDiv_bounds {s : Int} {n : Nat} {lo hi : Int} (hn : n ≠ 0)
    (hlo : n • lo ≤ s) (hhi : s ≤ n • hi) :
    lo ≤ jsRoundDiv s n ∧ jsRoundDiv s n ≤ hi := by
  have hn' : (0 : ℚ) < (n : ℚ) := by
    exact_mod_cast Nat.pos_of_ne_zero hn
  rw [jsRoundDiv_eq _ _ hn, jsRound]
  have hloZ : (n : Int) * lo ≤ s := by simpa [nsmul_eq_mul] using hlo
  have hhiZ : s ≤ (n : Int) * hi := by simpa [nsmul_eq_mul] using hhi
  have hlo' : (lo : ℚ) ≤ (s : ℚ) / (n : ℚ) := by
    rw [le_div_iff₀ hn']
    have h5 : (n : ℚ) * (lo : ℚ) ≤ (s : ℚ) := by exact_mod_cast hloZ
    linarith [h5]
  have hhi' : (s : ℚ) / (n : ℚ) ≤ (hi : ℚ) := by
    rw [div_le_iff₀ hn']
    have h6 : (s : ℚ) ≤ (n : ℚ) * (hi : ℚ) := by exact_mod_cast hhiZ
    linarith [h6]
  constructor
  · calc lo = lo + ⌊(1 / 2 : ℚ)⌋ := by rw [half_floor, add_zero]
    _ = ⌊(lo : ℚ) + 1 / 2⌋ := (Int.floor_int_add lo _).symm
    _ ≤ ⌊(s : ℚ) / (n : ℚ) + 1 / 2⌋ := Int.floor_le_floor (by linarith)
  · calc ⌊(s : ℚ) / (n : ℚ) + 1 / 2⌋ ≤ ⌊(hi : ℚ) + 1 / 2⌋ :=
        Int.floor_le_floor (by linarith)
    _ = hi + ⌊(1 / 2 : ℚ)⌋ := Int.floor_int_add hi _
    _ = hi := by rw [half_floor, add_zero]


theorem calculateStatistics_pos (values : List Int) (h : values.length ≠ 0) :
    calculateStatistics values =
      { min := (values.insertionSort (· ≤ ·)).getD 0 0
        max := (values.insertionSort (· ≤ ·)).getD
          ((values.insertionSort (· ≤ ·)).length - 1) 0
        avg := jsRoundDiv (values.insertionSort (· ≤ ·)).sum
          (values.insertionSort (· ≤ ·)).length
        p90 := percentile (values.insertionSort (· ≤ ·)) 90
        p95 := percentile (values.insertionSort (· ≤ ·)) 95
        p99 := percentile (values.insertionSort (· ≤ ·)) 99 } := by
  rw [calculateStatistics, if_neg h]

theorem C6_stats_bounds (values : List Int) :
    (calculateStatistics values).min ≤ (calculateStatistics values).avg ∧
    (calculateStatistics values).avg ≤ (calculateStatistics values).max ∧
    (calculateStatistics values).p90 ≤ (calculateStatistics values).p95 ∧
    (calculateStatistics values).p95 ≤ (calculateStatistics values).p99 ∧
    (calculateStatistics values).p99 ≤ (calculateStatistics values).max := by
  rcases Nat.eq_zero_or_pos values.length with hlen | hpos
  · rw [calculateStatistics, if_pos hlen]
    norm_num
  · have hlen : values.length ≠ 0 := by omega
    rw [calculateStatistics_pos values hlen]
    set sorted := values.insertionSort (· ≤ ·) with hsorted
    have hs : sorted.Sorted (· ≤ ·) := List.sorted_insertionSort _ _
    have hslen : sorted.length = values.length := List.length_insertionSort _ _
    have hne : sorted.length ≠ 0 := by omega
    have havg := @jsRoundDiv_bounds sorted.sum sorted.length
      (sorted.getD 0 0) (sorted.getD (sorted.length - 1) 0) hne
      (List.card_nsmul_le_sum _ _ (head_le_mem hs))
      (List.sum_le_card_nsmul _ _ (mem_le_last hs))
    refine ⟨havg.1, havg.2, ?_, ?_, ?_⟩
    · rw [percentile_eq_getD _ hne 90, percentile_eq_getD _ hne 95]
      exact sorted_getD_mono hs (by simp only [ceilDiv]; omega)
        (by simp only [ceilDiv]; omega)
    · rw [percentile_eq_getD _ hne 95, percentile_eq_getD _ hne 99]
      exact sorted_getD_mono hs (by simp only [ceilDiv]; omega)
        (by simp only [ceilDiv]; omega)
    · rw [percentile_eq_getD _ hne 99]
      exact sorted_getD_mono hs (by simp only [ceilDiv]; omega)
        (by omega)

theorem C5_statistics_shape :
    calculateStatistics [] = ⟨0, 0, 0, 0, 0, 0⟩ ∧
    ∀ values : List Int, values ≠ [] →
      calculateStatistics values =
        { min := (values.insertionSort (· ≤ ·)).headI
          max := (values.insertionSort (· ≤ ·)).getLastD 0
          avg := jsRound ((values.sum : ℚ) / (values.length : ℚ))
          p90 := (values.insertionSort (· ≤ ·)).getD
            (max 0 (⌈(90 : ℚ) / 100 * (values.length : ℚ)⌉ - 1)).toNat 0
          p95 := (values.insertionSort (· ≤ ·)).getD
            (max 0 (⌈(95 : ℚ) / 100 * (values.length : ℚ)⌉ - 1)).toNat 0
          p99 := (values.insertionSort (· ≤ ·)).getD
            (max 0 (⌈(99 : ℚ) / 100 * (values.length : ℚ)⌉ - 1)).toNat 0 } := by
  refine ⟨rfl, fun values hne => ?_⟩
  have hlen : values.length ≠ 0 := fun h0 => hne (List.length_eq_zero.mp h0)
  rw [calculateStatistics_pos values hlen]
  set sorted := values.insertionSort (· ≤ ·) with hsorted
  have hslen : sorted.length = values.length := List.length_insertionSort _ _
  have hne' : sorted.length ≠ 0 := by omega
  have hsne : sorted ≠ [] := fun h0 => hne' (by rw [h0]; rfl)
  have hsum : sorted.sum = values.sum := (List.perm_insertionSort _ _).sum_eq
  simp only [Stats.mk.injEq]
  refine ⟨getD_zero_headI sorted, getD_pred_getLastD sorted hsne, ?_, ?_, ?_, ?_⟩
  · rw [jsRoundDiv_eq _ _ hne', hsum, hslen]
  · rw [percentile_eq_getD _ hne' 90, hslen]
    congr 1
    have hcp : ((ceilDiv (90 * values.length) 100 : Nat) : Int)
        = ⌈(90 : ℚ) / 100 * (values.length : ℚ)⌉ := by
      rw [ceil_pct 90 values.length]
      norm_num
    rw [← hcp]
    omega
  · rw [percentile_eq_getD _ hne' 95, hslen]
    congr 1
    have hcp : ((ceilDiv (95 * values.length) 100 : Nat) : Int)
        = ⌈(95 : ℚ) / 100 * (values.length : ℚ)⌉ := by
      rw [ceil_pct 95 values.length]
      norm_num
    rw [← hcp]
    omega
  · rw [percentile_eq_getD _ hne' 99, hslen]
    congr 1
    have hcp : ((ceilDiv (99 * values.length) 100 : Nat) : Int)
        = ⌈(99 : ℚ) / 100 * (values.length : ℚ)⌉ := by
      rw [ceil_pct 99 values.length]
      norm_num
    rw [← hcp]
    omega

/-- Witness for **C5** at a concrete two-element list. -/
theorem C5_statistics_shape_witness :
    (calculateStatistics [480, 500]).min
      = (([480, 500] : List Int).insertionSort (· ≤ ·)).headI := by
  rw [C5_statistics_shape.2 [480, 500] (by decide)]

/-- **C4**: `parseJMeterResults` returns `null` (here `none`) when the CSV has
fewer than two non-empty lines or the header lacks the `label` or `elapsed`
column, and a data row too short to reach both required columns is skipped
without affecting any state. -/
theorem C4_malformed_csv :
    (∀ content : String, (csvLines content).length < 2 →
      parseJMeterResults content = none) ∧
    (∀ content : String,
      (jsIndexOf (parseCSVLine ((csvLines content).getD 0 "")) "label" = none ∨
       jsIndexOf (parseCSVLine ((csvLines content).getD 0 "")) "elapsed" = none) →
      parseJMeterResults content = none) ∧
    (∀ (idx : HeaderIdx) (st : ParseState) (line : String),
      (parseCSVLine line).length ≤ max idx.label idx.elapsed →
      processLine idx st line = st) := by
  refine ⟨?_, ?_, ?_⟩
  · intro content h
    simp only [parseJMeterResults]
    rw [if_pos h]
  · intro content h
    by_cases hl : (csvLines content).length < 2
    · simp only [parseJMeterResults]
      rw [if_pos hl]
    · simp only [parseJMeterResults]
      rw [if_neg hl]
      rcases h with h | h <;>
        rcases hx : jsIndexOf (parseCSVLine ((csvLines content).getD 0 "")) "label" with _ | i <;>
        rcases hy : jsIndexOf (parseCSVLine ((csvLines content).getD 0 "")) "elapsed" with _ | j <;>
        simp_all
  · intro idx st line h
    simp only [processLine]
    rw [if_neg (not_lt.mpr h)]

theorem C4_malformed_csv_witness :
    parseJMeterResults "just one line" = none ∧
    parseJMeterResults "label,foo\nA,2" = none ∧
    processLine idx0 initState "x" = initState :=
  ⟨C4_malformed_csv.1 "just one line" (by decide),
   C4_malformed_csv.2.1 "label,foo\nA,2" (by decide),
   C4_malformed_csv.2.2 idx0 initState "x" (by decide)⟩

theorem finalize_pass_shape (st : ParseState) :
    ((finalize st).totalSuccessCount + (finalize st).totalErrorCount = 0 →
      (finalize st).passPercentage = PassPct.num 100) ∧
    (0 < (finalize st).totalSuccessCount + (finalize st).totalErrorCount →
      (finalize st).passPercentage = PassPct.str
        (toFixed2 (((finalize st).totalSuccessCount : ℚ) /
          (((finalize st).totalSuccessCount + (finalize st).totalErrorCount : Nat) : ℚ)
          * 100))) := by
  constructor
  · intro h0
    simp only [finalize] at h0 ⊢
    rw [if_neg (by omega)]
  · intro hpos
    simp only [finalize] at hpos ⊢
    rw [if_pos hpos, toFixed2Ratio_eq _ _ (by omega)]

/-- **C10**: `passPercentage` is the number `100` when no requests were
counted, and otherwise the two-decimal string of
`successCount / (successCount + errorCount) * 100` - a type asymmetry between
the two cases. -/
theorem C10_passPercentage_type (content : String) (r : AggregatedResult)
    (h : parseJMeterResults content = some r) :
    (r.totalSuccessCount + r.totalErrorCount = 0 →
      r.passPercentage = PassPct.num 100) ∧
    (0 < r.totalSuccessCount + r.totalErrorCount →
      r.passPercentage = PassPct.str
        (toFixed2 ((r.totalSuccessCount : ℚ) /
          ((r.totalSuccessCount + r.totalErrorCount : Nat) : ℚ) * 100))) := by
  simp only [parseJMeterResults] at h
  split at h
  · exact absurd h (by simp)
  · split at h
    · rw [Option.some.injEq] at h
      subst h
      exact finalize_pass_shape _
    · exact absurd h (by simp)

theorem C10_passPercentage_type_witness :
    r10.passPercentage = PassPct.num 100 :=
  (C10_passPercentage_type "label,elapsed\nA,5" r10 (by decide)).1 (by decide)

/-! ## Counter bookkeeping of the parse loop -/

theorem tally_fields (st : ParseState) (s : Sample) :
    (tally st s).allSamples = st.allSamples ∧
    (tally st s).totalErrorCount
      = st.totalErrorCount + (if errCond s then 1 else 0) ∧
    (tally st s).totalSuccessCount
      = st.totalSuccessCount + (if s.success then 1 else 0) ∧
    (tally st s).errors = st.errors ++ (if errCond s then [mkErr s] else []) := by
  unfold tally
  by_cases hE : errCond s
  · have hs : s.success = false := by
      have h0 := hE
      simp only [errCond, Bool.and_eq_true, Bool.not_eq_true'] at h0
      exact h0.1.1
    rw [if_pos hE]
    simp [hE, hs]
  · rw [if_neg hE]
    by_cases hs : s.success
    · rw [if_pos hs]
      simp [hE, hs]
    · rw [if_neg hs]
      simp [hE, hs]

theorem controllerStep_fields (st : ParseState) (s : Sample) :
    (controllerStep st s).allSamples = st.allSamples ∧
    (controllerStep st s).totalErrorCount = st.totalErrorCount ∧
    (controllerStep st s).totalSuccessCount = st.totalSuccessCount ∧
    (controllerStep st s).errors = st.errors :=
  ⟨rfl, rfl, rfl, rfl⟩

theorem childStep_fields (st : ParseState) (s : Sample) (name : String) (k : Nat) :
    (childStep st s name k).allSamples = st.allSamples ∧
    (childStep st s name k).totalErrorCount = st.totalErrorCount ∧
    (childStep st s name k).totalSuccessCount = st.totalSuccessCount ∧
    (childStep st s name k).errors = st.errors := by
  unfold childStep
  split
  · exact ⟨rfl, rfl, rfl, rfl⟩
  · split
    · split
      · exact ⟨rfl, rfl, rfl, rfl⟩
      · exact ⟨rfl, rfl, rfl, rfl⟩
    · exact ⟨rfl, rfl, rfl, rfl⟩

theorem processSample_fields (st : ParseState) (s : Sample) :
    (processSample st s).allSamples = st.allSamples ++ [s] ∧
    (processSample st s).totalErrorCount
      = st.totalErrorCount + (if errCond s then 1 else 0) ∧
    (processSample st s).totalSuccessCount
      = st.totalSuccessCount + (if s.success then 1 else 0) ∧
    (processSample st s).errors
      = st.errors ++ (if errCond s then [mkErr s] else []) := by
  unfold processSample
  dsimp only
  obtain ⟨t1, t2, t3, t4⟩ :=
    tally_fields { st with allSamples := st.allSamples ++ [s] } s
  split
  · obtain ⟨c1, c2, c3, c4⟩ :=
      controllerStep_fields (tally { st with allSamples := st.allSamples ++ [s] } s) s
    exact ⟨by rw [c1, t1], by rw [c2, t2], by rw [c3, t3], by rw [c4, t4]⟩
  · rcases hcur : (tally { st with allSamples := st.allSamples ++ [s] } s).current
      with _ | ⟨name, k⟩
    · dsimp only
      exact ⟨by rw [t1], by rw [t2], by rw [t3], by rw [t4]⟩
    · dsimp only
      obtain ⟨c1, c2, c3, c4⟩ :=
        childStep_fields (tally { st with allSamples := st.allSamples ++ [s] } s) s name k
      exact ⟨by rw [c1, t1], by rw [c2, t2], by rw [c3, t3], by rw [c4, t4]⟩

theorem foldl_counters (idx : HeaderIdx) (lines : List String) (st : ParseState)
    (h1 : st.totalErrorCount = (st.allSamples.filter errCond).length)
    (h2 : st.totalSuccessCount
      = (st.allSamples.filter (fun s => s.success)).length)
    (h3 : st.errors = (st.allSamples.filter errCond).map mkErr) :
    (lines.foldl (processLine idx) st).totalErrorCount
      = ((lines.foldl (processLine idx) st).allSamples.filter errCond).length ∧
    (lines.foldl (processLine idx) st).totalSuccessCount
      = ((lines.foldl (processLine idx) st).allSamples.filter
          (fun s => s.success)).length ∧
    (lines.foldl (processLine idx) st).errors
      = ((lines.foldl (processLine idx) st).allSamples.filter errCond).map mkErr := by
  induction lines generalizing st with
  | nil => exact ⟨h1, h2, h3⟩
  | cons l ls ih =>
      simp only [List.foldl_cons]
      by_cases hl :
          max idx.label idx.elapsed < (parseCSVLine l).length
      · have hstep : processLine idx st l = processSample st (mkSample idx (parseCSVLine l)) := by
          simp only [processLine]
          rw [if_pos hl]
        rw [hstep]
        obtain ⟨p1, p2, p3, p4⟩ := processSample_fields st (mkSample idx (parseCSVLine l))
        apply ih
        · rw [p2, p1, List.filter_append, List.length_append, h1]
          cases hE : errCond (mkSample idx (parseCSVLine l)) <;> simp [hE]
        · rw [p3, p1, List.filter_append, List.length_append, h2]
          cases hS : (mkSample idx (parseCSVLine l)).success <;> simp [hS]
        · rw [p4, p1, List.filter_append, List.map_append, h3]
          cases hE : errCond (mkSample idx (parseCSVLine l)) <;> simp [hE]
      · have hstep : processLine idx st l = st := by
          simp only [processLine]
          rw [if_neg hl]
        rw [hstep]
        exact ih st h1 h2 h3

/-- **C3**: over the single pass, the error counter (and errors list) counts
exactly the failed individual non-controller samples, while the success
counter counts every sample with `success = true`, controllers included. -/
theorem C3_counter_asymmetry (lines : List String) (idx : HeaderIdx) :
    (lines.foldl (processLine idx) initState).totalErrorCount
      = ((lines.foldl (processLine idx) initState).allSamples.filter
          errCond).length ∧
    (lines.foldl (processLine idx) initState).totalSuccessCount
      = ((lines.foldl (processLine idx) initState).allSamples.filter
          (fun s => s.success)).length ∧
    (lines.foldl (processLine idx) initState).errors
      = ((lines.foldl (processLine idx) initState).allSamples.filter
          errCond).map mkErr :=
  foldl_counters idx lines initState rfl rfl rfl

/-! ## Concurrency-inference lemmas -/

theorem mem_dedupSeen {α : Type} [DecidableEq α] {x : α} :
    ∀ {l seen : List α}, x ∈ dedupSeen l seen → x ∈ l := by
  intro l
  induction l with
  | nil => intro seen h; simp [dedupSeen] at h
  | cons a t ih =>
      intro seen h
      rw [dedupSeen] at h
      split at h
      · exact List.mem_cons_of_mem a (ih h)
      · rcases List.mem_cons.mp h with rfl | h2
        · exact List.mem_cons_self _ _
        · exact List.mem_cons_of_mem a (ih h2)

theorem jsDedup_ne_nil {α : Type} [DecidableEq α] {l : List α} (h : l ≠ []) :
    jsDedup l ≠ [] := by
  cases l with
  | nil => exact absurd rfl h
  | cons a t =>
      rw [jsDedup, dedupSeen, if_neg (by simp)]
      exact List.cons_ne_nil _ _

theorem groupAdd_ne_nil (m : List (String × List String)) (key name : String) :
    groupAdd m key name ≠ [] := by
  rw [groupAdd]
  split
  · cases m with
    | nil => simp [groupFind] at *
    | cons q t => simp
  · simp

theorem mem_groupAdd {p : String × List String}
    {m : List (String × List String)} {key name : String}
    (h : p ∈ groupAdd m key name) :
    p ∈ m ∨ (∃ q ∈ m, p = (key, q.2 ++ [name])) ∨ p = (key, [name]) := by
  rw [groupAdd] at h
  split at h
  · obtain ⟨q, hq, hfq⟩ := List.mem_map.mp h
    by_cases hk : q.1 = key
    · rw [if_pos hk] at hfq
      exact Or.inr (Or.inl ⟨q, hq, hfq.symm⟩)
    · rw [if_neg hk] at hfq
      exact Or.inl (hfq ▸ hq)
  · rcases List.mem_append.mp h with h2 | h2
    · exact Or.inl h2
    · exact Or.inr (Or.inr (by simpa using h2))

theorem threadsByGroup_inv (names : List String) :
    ∀ p ∈ threadsByGroup names, p.2 ≠ [] ∧ ∀ x ∈ p.2, x ∈ names := by
  have main : ∀ (toProcess : List String) (m : List (String × List String)),
      (∀ x ∈ toProcess, x ∈ names) →
      (∀ p ∈ m, p.2 ≠ [] ∧ ∀ x ∈ p.2, x ∈ names) →
      ∀ p ∈ toProcess.foldl (fun m n => groupAdd m (groupKey n) n) m,
        p.2 ≠ [] ∧ ∀ x ∈ p.2, x ∈ names := by
    intro toProcess
    induction toProcess with
    | nil => intro m _ hm p hp; exact hm p hp
    | cons a t ih =>
        intro m hnames hm p hp
        simp only [List.foldl_cons] at hp
        refine ih _ (fun x hx => hnames x (List.mem_cons_of_mem a hx)) ?_ p hp
        intro q hq
        rcases mem_groupAdd hq with h2 | ⟨r, hr, rfl⟩ | rfl
        · exact hm q h2
        · refine ⟨by simp, fun x hx => ?_⟩
          rcases List.mem_append.mp hx with h3 | h3
          · exact (hm r hr).2 x h3
          · rw [List.mem_singleton.mp h3]
            exact hnames a (List.mem_cons_self _ _)
        · refine ⟨by simp, fun x hx => ?_⟩
          rw [List.mem_singleton.mp hx]
          exact hnames a (List.mem_cons_self _ _)
  exact main names [] (fun x hx => hx) (by simp)

theorem foldl_groupAdd_ne_nil (toProcess : List String) :
    ∀ (m : List (String × List String)), toProcess ≠ [] ∨ m ≠ [] →
      toProcess.foldl (fun m n => groupAdd m (groupKey n) n) m ≠ [] := by
  induction toProcess with
  | nil =>
      intro m h
      rcases h with h | h
      · exact absurd rfl h
      · simpa using h
  | cons a t ih =>
      intro m _
      simp only [List.foldl_cons]
      rcases List.eq_nil_or_concat t with rfl | _
      · simpa using groupAdd_ne_nil m (groupKey a) a
      · exact ih _ (Or.inr (groupAdd_ne_nil m (groupKey a) a))

theorem le_foldl_max (l : List Nat) : ∀ (acc : Nat), acc ≤ l.foldl max acc := by
  induction l with
  | nil => intro acc; exact le_refl acc
  | cons a t ih =>
      intro acc
      exact le_trans (Nat.le_max_left acc a) (ih (max acc a))

theorem mem_le_foldl_max {n : Nat} {l : List Nat} (h : n ∈ l) :
    ∀ (acc : Nat), n ≤ l.foldl max acc := by
  induction l with
  | nil => simp at h
  | cons a t ih =>
      intro acc
      rcases List.mem_cons.mp h with rfl | h2
      · exact le_trans (Nat.le_max_right acc n) (le_foldl_max t (max acc n))
      · exact ih h2 (max acc a)

theorem mem_le_maxList {n : Nat} {l : List Nat} (h : n ∈ l) : n ≤ maxList l :=
  mem_le_foldl_max h 0

theorem one_le_sum {l : List Nat} (hne : l ≠ []) (h : ∀ x ∈ l, 1 ≤ x) :
    1 ≤ l.sum := by
  cases l with
  | nil => exact absurd rfl hne
  | cons a t =>
      have := h a (List.mem_cons_self _ _)
      simp only [List.sum_cons]
      omega


/-- Counterexample to **C9** as stated: one matching sample whose thread name
ends in `-0` (trailing thread number 0) yields an inferred concurrency of 0,
not ≥ 1. -/
theorem C9_concurrency_lower_bound_counterexample :
    (matchingSamplesOf ["District Coordinator"] none
      [sampleNamed "District Coordinator 1-0"]).length = 1 ∧
    countThreadInstances ["District Coordinator"] none
      [sampleNamed "District Coordinator 1-0"] 10000 30000 = 0 := by decide

/-- **C9** (amended): if at least one sample matches and no matching thread
name has extracted trailing number 0 (JMeter names are 1-indexed), the
inferred count is at least 1. -/
theorem C9_concurrency_lower_bound_amended (patterns : List String)
    (tgn : Option (List String)) (allSamples : List Sample)
    (rampUpWindowMs executionGapMs : Int)
    (hne : matchingSamplesOf patterns tgn allSamples ≠ [])
    (hpos : ∀ name ∈ jsDedup ((matchingSamplesOf patterns tgn allSamples).map
        (fun s => s.threadName)), extractNum name ≠ some 0) :
    1 ≤ countThreadInstances patterns tgn allSamples
        rampUpWindowMs executionGapMs := by
  have hposN : ∀ name ∈ jsDedup ((matchingSamplesOf patterns tgn allSamples).map
      (fun s => s.threadName)), ∀ n, extractNum name = some n → 1 ≤ n := by
    intro name hmem n hext
    have := hpos name hmem
    rw [hext] at this
    rcases Nat.eq_zero_or_pos n with rfl | h
    · exact absurd rfl this
    · exact h
  unfold countThreadInstances
  dsimp only
  rw [if_neg (by simpa [List.length_eq_zero] using hne)]
  split
  · rename_i hglen
    apply one_le_sum
    · intro h0
      simp only [List.map_eq_nil] at h0
      rw [h0] at hglen
      simp at hglen
    · intro x hx
      obtain ⟨g, hgmem, rfl⟩ := List.mem_map.mp hx
      have hinv := threadsByGroup_inv _ g hgmem
      split
      · rename_i hnums
        obtain ⟨v, hv⟩ := List.exists_mem_of_ne_nil _ hnums
        obtain ⟨name, hnamemem, hext⟩ := List.mem_filterMap.mp hv
        exact le_trans (hposN name (hinv.2 name hnamemem) v hext)
          (mem_le_maxList hv)
      · exact List.length_pos.mpr hinv.1
  · split
    · rename_i hnums
      obtain ⟨v, hv⟩ := List.exists_mem_of_ne_nil _ hnums
      obtain ⟨name, hnamemem, hext⟩ := List.mem_filterMap.mp hv
      exact le_trans (hposN name hnamemem v hext) (mem_le_maxList hv)
    · split
      · rename_i hlen
        omega
      · exact Nat.le_max_right _ 1

/-- Witness for the amended **C9** at the District Coordinator sample set. -/
theorem C9_concurrency_lower_bound_amended_witness :
    1 ≤ countThreadInstances ["District Coordinator"] none dcSamples
        10000 30000 :=
  C9_concurrency_lower_bound_amended ["District Coordinator"] none dcSamples
    10000 30000 (by decide) (by decide)

/-! ## Child-capture invariant (C1) -/

theorem txFind_txSet_self (m : TxMap) (k : String) (t : Transaction) :
    txFind (txSet m k t) k = some t := by
  induction m with
  | nil => simp [txSet, txFind]
  | cons a rest ih =>
      obtain ⟨a1, a2⟩ := a
      rw [txSet]
      by_cases ha : a1 = k
      · rw [if_pos ha, txFind, if_pos rfl]
      · rw [if_neg ha, txFind, if_neg ha]
        exact ih

theorem txFind_txSet_ne (m : TxMap) (k : String) (t : Transaction)
    (k' : String) (h : k' ≠ k) :
    txFind (txSet m k t) k' = txFind m k' := by
  induction m with
  | nil =>
      rw [txSet]
      show (if k = k' then some t else txFind [] k') = txFind [] k'
      rw [if_neg (show ¬k = k' from fun hh => h hh.symm)]
  | cons a rest ih =>
      obtain ⟨a1, a2⟩ := a
      rw [txSet]
      by_cases ha : a1 = k
      · rw [if_pos ha, txFind, if_neg (show ¬k = k' from fun hh => h hh.symm),
          txFind, if_neg (show ¬a1 = k' from fun hh => h ((ha ▸ hh).symm))]
      · rw [if_neg ha, txFind, txFind]
        by_cases ha' : a1 = k'
        · rw [if_pos ha', if_pos ha']
        · rw [if_neg ha', if_neg ha']
          exact ih

theorem mem_txSet {p : String × Transaction} {m : TxMap} {k : String}
    {t : Transaction} (h : p ∈ txSet m k t) :
    p = (k, t) ∨ p ∈ m := by
  induction m with
  | nil => simp only [txSet] at h; exact Or.inl (by simpa using h)
  | cons a rest ih =>
      obtain ⟨a1, a2⟩ := a
      rw [txSet] at h
      by_cases ha : a1 = k
      · rw [if_pos ha] at h
        rcases List.mem_cons.mp h with rfl | h2
        · exact Or.inl rfl
        · exact Or.inr (List.mem_cons_of_mem _ h2)
      · rw [if_neg ha] at h
        rcases List.mem_cons.mp h with rfl | h2
        · exact Or.inr (List.mem_cons_self _ _)
        · rcases ih h2 with h3 | h3
          · exact Or.inl h3
          · exact Or.inr (List.mem_cons_of_mem _ h3)

theorem txFind_mem {m : TxMap} {k : String} {t : Transaction}
    (h : txFind m k = some t) : (k, t) ∈ m := by
  induction m with
  | nil => simp [txFind] at h
  | cons a rest ih =>
      obtain ⟨a1, a2⟩ := a
      by_cases ha : a1 = k
      · rw [txFind, if_pos ha] at h
        obtain rfl : a2 = t := by simpa using h
        subst ha
        exact List.mem_cons_self _ _
      · rw [txFind, if_neg ha] at h
        exact List.mem_cons_of_mem _ (ih h)

theorem getD_set_self {α : Type} (l : List α) (i : Nat) (x d : α)
    (h : i < l.length) : (l.set i x).getD i d = x := by
  rw [List.getD_eq_getElem _ _ (by simpa using h)]
  exact List.getElem_set_self ..

theorem getD_set_ne {α : Type} (l : List α) {i j : Nat} (x d : α)
    (h : i ≠ j) : (l.set i x).getD j d = l.getD j d := by
  rcases Nat.lt_or_ge j l.length with hj | hj
  · rw [List.getD_eq_getElem _ _ (by simpa using hj),
      List.getD_eq_getElem _ _ hj]
    exact List.getElem_set_ne (by simpa using h) ..
  · rw [List.getD_eq_default _ _ (by simpa using hj),
      List.getD_eq_default _ _ hj]

theorem initTx_bounded (name : String) : TxBounded (initTx name) :=
  ⟨rfl, fun i h => by simp [initTx] at h⟩

theorem tally_keeps (st : ParseState) (s : Sample) :
    (tally st s).samples = st.samples ∧
    (tally st s).transactions = st.transactions ∧
    (tally st s).current = st.current ∧
    (tally st s).expectedChildRequestCount = st.expectedChildRequestCount ∧
    (tally st s).collectedChildRequestCount
      = st.collectedChildRequestCount := by
  unfold tally
  split_ifs <;> exact ⟨rfl, rfl, rfl, rfl, rfl⟩

theorem tally_inv {st : ParseState} (s : Sample) (h : StInv st) :
    StInv (tally st s) := by
  unfold tally
  split_ifs <;> exact h


theorem txBounded_extend (t0 : Transaction) (s : Sample) (hB : TxBounded t0) :
    TxBounded { t0 with
      samples := t0.samples ++ [s]
      totalSamples := t0.totalSamples + 1
      successCount := if s.success then t0.successCount + 1 else t0.successCount
      errorCount := if s.success then t0.errorCount else t0.errorCount + 1
      childRequestsByExecution := t0.childRequestsByExecution ++ [[]] } := by
  obtain ⟨hlen, hbound⟩ := hB
  constructor
  · dsimp only
    rw [List.length_append, List.length_append, hlen]
    rfl
  · intro i hi
    dsimp only at hi ⊢
    rw [List.length_append] at hi
    rcases Nat.lt_or_ge i t0.samples.length with hlt | hge
    · rw [List.getD_append _ _ _ _ (hlen ▸ hlt), List.getD_append _ _ _ _ hlt]
      exact hbound i hlt
    · have hieq : i = t0.samples.length := by
        simp only [List.length_singleton] at hi
        omega
      subst hieq
      rw [List.getD_append_right _ _ _ _ (le_of_eq hlen)]
      simp [hlen]

theorem controllerStep_inv (st : ParseState) (s : Sample) (hInv : StInv st) :
    StInv (controllerStep st s) := by
  obtain ⟨hAll, _⟩ := hInv
  have hB : TxBounded ((txFind st.transactions s.label).getD (initTx s.label)) := by
    rcases hfind : txFind st.transactions s.label with _ | t
    · exact initTx_bounded _
    · exact hAll (s.label, t) (txFind_mem hfind)
  unfold controllerStep
  dsimp only
  unfold StInv
  constructor
  · intro p hp
    rcases mem_txSet hp with rfl | hp2
    · exact txBounded_extend _ s hB
    · exact hAll p hp2
  · dsimp only
    refine ⟨_, txFind_txSet_self _ _ _, ?_, ?_, ?_⟩
    · dsimp only
      rw [List.length_append, List.length_singleton]
    · dsimp only
      rw [List.getD_append_right _ _ _ _ (le_refl _)]
      simp
    · dsimp only
      rw [List.getD_append_right _ _ _ _ (le_of_eq hB.1)]
      simp [hB.1]

theorem childStep_inv (st : ParseState) (s : Sample) (name : String) (k : Nat)
    (hcur : st.current = some (name, k)) (hInv : StInv st) :
    StInv (childStep st s name k) := by
  obtain ⟨hAll, hWin⟩ := hInv
  simp only [hcur] at hWin
  obtain ⟨t, hfind, hk, hexp, hcol⟩ := hWin
  have hBt : TxBounded t := hAll (name, t) (txFind_mem hfind)
  obtain ⟨hlen, hbound⟩ := hBt
  unfold childStep
  split
  · exact ⟨hAll, trivial⟩
  · rename_i hle
    have hlt : st.collectedChildRequestCount
        < st.expectedChildRequestCount := Nat.lt_of_not_le hle
    split
    · rw [hfind]
      dsimp only
      have hk' : k < t.samples.length := by omega
      have hkb : k < t.childRequestsByExecution.length := by omega
      unfold StInv
      constructor
      · intro p hp
        rcases mem_txSet hp with rfl | hp2
        · constructor
          · dsimp only
            rw [List.length_set]
            exact hlen
          · intro i hi
            dsimp only at hi ⊢
            by_cases hik : i = k
            · subst hik
              rw [getD_set_self _ _ _ _ hkb, List.length_append,
                List.length_singleton]
              have hble := hbound i hi
              omega
            · rw [getD_set_ne _ _ _ (fun hh => hik hh.symm)]
              exact hbound i hi
        · exact hAll p hp2
      · dsimp only
        simp only [hcur]
        refine ⟨_, txFind_txSet_self _ _ _, ?_, ?_, ?_⟩
        · dsimp only
          exact hk
        · dsimp only
          exact hexp
        · dsimp only
          rw [getD_set_self _ _ _ _ hkb, List.length_append,
            List.length_singleton, hcol]
    · exact ⟨hAll, by simp only [hcur]; exact ⟨t, hfind, hk, hexp, hcol⟩⟩

theorem processSample_inv (st : ParseState) (s : Sample) (hInv : StInv st) :
    StInv (processSample st s) := by
  have h1 : StInv (tally { st with allSamples := st.allSamples ++ [s] } s) :=
    tally_inv s hInv
  unfold processSample
  dsimp only
  split
  · exact controllerStep_inv _ s h1
  · rcases hcur : (tally { st with allSamples := st.allSamples ++ [s] } s).current
        with _ | ⟨name, k⟩
    · dsimp only
      exact h1
    · dsimp only
      exact childStep_inv _ s name k hcur h1


theorem initState_inv : StInv initState :=
  ⟨fun p hp => absurd hp (List.not_mem_nil p), trivial⟩

theorem foldl_inv (idx : HeaderIdx) (lines : List String) (st : ParseState)
    (h : StInv st) : StInv (lines.foldl (processLine idx) st) := by
  induction lines generalizing st with
  | nil => exact h
  | cons l ls ih =>
      simp only [List.foldl_cons]
      apply ih
      unfold processLine
      dsimp only
      split
      · exact processSample_inv _ _ h
      · exact h

/-- **C1**: for every transaction produced by `parseJMeterResults`, each
execution's captured-children list is bounded by the expected count parsed
from that execution's controller row; and a capture window whose quota is
already filled is closed by the next non-controller row without capturing
it. -/
theorem C1_child_capture_invariant :
    (∀ (content : String) (r : AggregatedResult),
      parseJMeterResults content = some r →
      ∀ p ∈ r.transactions,
        p.2.childRequestsByExecution.length = p.2.samples.length ∧
        ∀ i, i < p.2.samples.length →
          (p.2.childRequestsByExecution.getD i []).length
            ≤ expectedOfMessage ((p.2.samples.getD i default).responseMessage)) ∧
    (∀ (st : ParseState) (s : Sample),
      isTransactionController s = false →
      st.expectedChildRequestCount ≤ st.collectedChildRequestCount →
      (processSample st s).transactions = st.transactions ∧
      (processSample st s).current = none) := by
  constructor
  · intro content r h p hp
    simp only [parseJMeterResults] at h
    split at h
    · exact absurd h (by simp)
    · split at h
      · rename_i x1 x2 labelIdx elapsedIdx hla hle
        rw [Option.some.injEq] at h
        subst h
        simp only [finalize] at hp
        obtain ⟨q, hq, rfl⟩ := List.mem_map.mp hp
        have hInv := foldl_inv
          (mkHeaderIdx (parseCSVLine ((csvLines content).getD 0 "")) labelIdx
            elapsedIdx)
          ((csvLines content).drop 1) initState initState_inv
        have hB : TxBounded q.2 := hInv.1 q hq
        exact ⟨hB.1, hB.2⟩
      · exact absurd h (by simp)
  · intro st s hctrl hquota
    unfold processSample
    dsimp only
    rw [if_neg (by simp [hctrl])]
    obtain ⟨hsm, htx, hcu, hex, hco⟩ :=
      tally_keeps { st with allSamples := st.allSamples ++ [s] } s
    rcases hcur : (tally { st with allSamples := st.allSamples ++ [s] } s).current
        with _ | ⟨name, k⟩
    · dsimp only
      exact ⟨htx, hcur⟩
    · dsimp only
      unfold childStep
      rw [if_pos (by rw [hex, hco]; exact hquota)]
      exact ⟨htx, rfl⟩

/-- Witness for **C1** at a concrete CSV and a concrete filled-quota state. -/
theorem C1_child_capture_invariant_witness :
    (txC1.childRequestsByExecution.getD 0 []).length
      ≤ expectedOfMessage ((txC1.samples.getD 0 default).responseMessage) ∧
    ((processSample initState (sampleNamed "X")).transactions
        = initState.transactions ∧
      (processSample initState (sampleNamed "X")).current = none) :=
  ⟨(C1_child_capture_invariant.1 csvC1w rC1 (by decide) ("T", txC1)
      (by decide)).2 0 (by decide),
   C1_child_capture_invariant.2 initState (sampleNamed "X") (by decide)
     (by decide)⟩


end UnifiedReport
